import Mathlib

/-!
Verification of the post-selection and repost-cooldown logic of
`bots/bf_promo_bot.py`.

The Python program is shallowly embedded below:

* The persisted cooldown file is modelled by `FS`: the file may be
  absent, unreadable/not-JSON (both make `json.load` raise, which
  `load_json` catches), or it stores a decoded JSON value `JTop`.
  A decoded JSON value is either an object whose values are strings or
  non-strings (`JStr`), or some other JSON value (array, number, ...)
  on which `data.items()` would raise `AttributeError`.
* Timestamps are `Int` instants; `TimeModel` abstracts
  `datetime.fromisoformat` / `datetime.isoformat`.  `parse s` returns
  `none` when `fromisoformat` raises, and otherwise `some (aware, t)`
  where `aware = false` models a timezone-naive result (comparing a
  naive datetime against the aware cutoff raises `TypeError` in Python,
  which `load_repost_log` does not catch).
* Fallible Python code is embedded in `Except PyError`.
* The per-item action loop of `main` is embedded as an event-trace
  function (`itemEvents`, `runItems`, `runSelected`), with an `Api`
  oracle fixing the outcome of every external call.
-/

/-- A JSON value in value position of the stored object: either a JSON
string or some non-string value (on which `fromisoformat` raises
`TypeError`, caught by the per-entry `except`). -/
inductive JStr where
  | s (v : String)
  | nonStr
deriving DecidableEq

/-- A decoded top-level JSON value: an object (modelled as an
association list) or any non-object value, on which `.items()`
raises. -/
inductive JTop where
  | jobj (entries : List (String × JStr))
  | jother
deriving DecidableEq

/-- State of the cooldown file on disk. `absent` models a missing path,
`unreadable` a file whose open/`json.load` raises (caught by
`load_json`), `stored v` a file holding the JSON value `v`. -/
inductive FS where
  | absent
  | unreadable
  | stored (v : JTop)
deriving DecidableEq

/-- An in-memory cooldown mapping `{uri: iso_timestamp}`; Python dict
modelled as an insertion-ordered association list. -/
abbrev Dict := List (String × String)

/-- Uncaught Python exceptions that can escape `load_repost_log`:
`attrError` for `data.items()` on a non-object, `typeError` for
comparing a timezone-naive datetime with the aware cutoff. -/
inductive PyError where
  | attrError
  | typeError
deriving DecidableEq

/-- Abstraction of the `datetime` library: `parse` models
`datetime.fromisoformat` (`none` = raises; `some (aware, t)` = returns
a datetime at instant `t`, timezone-aware iff `aware`), and `format`
models `datetime.now(timezone.utc).isoformat()` at instant `t`. -/
structure TimeModel where
  parse : String → Option (Bool × Int)
  format : Int → String

/-- `COOLDOWN_DAYS = 14` from the source. -/
def COOLDOWN_DAYS : Int := 14

/-- Seconds per day, fixing the unit of `Int` instants. -/
def SECONDS_PER_DAY : Int := 86400

/-- The cutoff `now - timedelta(days=COOLDOWN_DAYS)`. -/
def cutoffOf (now : Int) : Int := now - COOLDOWN_DAYS * SECONDS_PER_DAY

/-- `load_json(path, default)`: returns `default` when the file is
missing and when open/`json.load` raises; otherwise the decoded JSON
value. -/
def load_json (fs : FS) (default : JTop) : JTop :=
  match fs with
  | FS.absent => default
  | FS.unreadable => default
  | FS.stored v => v

/-- View an in-memory mapping as the JSON object entries `save_json`
writes for it (every value is a JSON string). -/
def toJ (d : Dict) : List (String × JStr) :=
  d.map (fun e => (e.1, JStr.s e.2))

/-- The entry-cleaning loop of `load_repost_log`: for each `(uri, ts)`,
`fromisoformat` on a non-string or unparsable string raises inside the
`try` and the entry is skipped (`continue`); a timezone-naive parse
makes `dt >= cutoff` raise `TypeError`, which nothing catches; an aware
parse keeps the entry iff `dt >= cutoff`. -/
def cleanEntries (tm : TimeModel) (cutoff : Int) :
    List (String × JStr) → Except PyError Dict
  | [] => Except.ok []
  | (_, JStr.nonStr) :: rest => cleanEntries tm cutoff rest
  | (u, JStr.s ts) :: rest =>
    match tm.parse ts with
    | none => cleanEntries tm cutoff rest
    | some (false, _) => Except.error PyError.typeError
    | some (true, dt) =>
      match cleanEntries tm cutoff rest with
      | Except.error e => Except.error e
      | Except.ok tail =>
        Except.ok (if cutoff ≤ dt then (u, ts) :: tail else tail)

/-- The JSON-object entries the cleaning loop iterates over for a given
file state (the decoded object's entries; `[]` for the default and for
a non-object, where the loop is never reached). -/
def fileEntries (fs : FS) : List (String × JStr) :=
  match load_json fs (JTop.jobj []) with
  | JTop.jobj entries => entries
  | JTop.jother => []

/-- `load_repost_log()`: loads the mapping via `load_json`, drops
entries whose timestamps do not parse, propagates the uncaught
`AttributeError`/`TypeError` cases, keeps entries within the cooldown
window, and re-persists exactly when the cleaned mapping differs from
the loaded data.  Returns the cleaned mapping together with the
resulting file state. -/
def load_repost_log (tm : TimeModel) (now : Int) (fs : FS) :
    Except PyError (Dict × FS) :=
  match load_json fs (JTop.jobj []) with
  | JTop.jother => Except.error PyError.attrError
  | JTop.jobj entries =>
    match cleanEntries tm (cutoffOf now) entries with
    | Except.error e => Except.error e
    | Except.ok cleaned =>
      if toJ cleaned = entries then Except.ok (cleaned, fs)
      else Except.ok (cleaned, FS.stored (JTop.jobj (toJ cleaned)))

/-- `can_repost(uri, log)`: true iff `uri not in log`. -/
def can_repost (uri : String) (log : Dict) : Bool :=
  (List.lookup uri log).isNone

/-- Python dict assignment `log[uri] = v`: overwrite the first entry
with key `uri` in place, else append. -/
def dictSet (log : Dict) (uri v : String) : Dict :=
  match log with
  | [] => [(uri, v)]
  | (k, w) :: rest =>
    if k = uri then (uri, v) :: rest else (k, w) :: dictSet rest uri v

/-- `mark_reposted(uri, log)`: sets `log[uri] = now.isoformat()` and
persists the whole mapping with `save_json`. -/
def mark_reposted (tm : TimeModel) (now : Int) (uri : String)
    (log : Dict) : Dict × FS :=
  let log' := dictSet log uri (tm.format now)
  (log', FS.stored (JTop.jobj (toJ log')))

/-- Decidable well-formedness of one stored entry: its value is not a
string that parses to a timezone-naive datetime (the one case whose
comparison raises out of `load_repost_log`). -/
def entryOk (tm : TimeModel) : String × JStr → Bool
  | (_, JStr.nonStr) => true
  | (_, JStr.s ts) =>
    match tm.parse ts with
    | some (false, _) => false
    | _ => true

/-- The author record of a post (`post.author`). -/
structure Author where
  did : String
deriving DecidableEq

/-- The viewer's existing repost reference (`viewer.repost`): either a
record-key string (modelled as `uri = some s`) or an object whose `uri`
attribute may be absent. -/
structure RepostRef where
  uri : Option String
deriving DecidableEq

/-- The viewer state attached to a post (`post.viewer`). -/
structure PostViewer where
  repost : Option RepostRef
deriving DecidableEq

/-- A post as consumed by the bot: `uri`, `cid`, `author`, the optional
`record.createdAt` and `post.indexedAt` timestamps, and the optional
viewer state. -/
structure Post where
  uri : String
  cid : String
  author : Author
  createdAt : Option String
  indexedAt : Option String
  viewer : Option PostViewer
deriving DecidableEq

/-- One item of the author feed (`item.post`). -/
structure FeedItem where
  post : Post
deriving DecidableEq

/-- Python `x or y` for an optional string `x` (both `None` and the
empty string are falsy). -/
def strOr (a : Option String) (b : String) : String :=
  match a with
  | none => b
  | some s => if s = "" then b else s

/-- `get_post_timestamp(feed_item)`: `record.createdAt`, falling back
to `post.indexedAt`, falling back to `""`. -/
def get_post_timestamp (item : FeedItem) : String :=
  strOr item.post.createdAt (strOr item.post.indexedAt "")

/-- The sort key relation used by `posts.sort(key=get_post_timestamp)`
and `chosen_old.sort(key=get_post_timestamp)`. -/
def tsLe (a b : FeedItem) : Prop :=
  get_post_timestamp a ≤ get_post_timestamp b

instance : DecidableRel tsLe := fun a b =>
  inferInstanceAs (Decidable (get_post_timestamp a ≤ get_post_timestamp b))

/-- A profile as consumed by the bot: optional avatar, the three counts
(`getattr` default 0), and whether the viewer already follows the
account (`bool(viewer and viewer.following)`). -/
structure Profile where
  avatar : Option String
  postsCount : Nat
  followersCount : Nat
  followsCount : Nat
  viewerFollowing : Bool
deriving DecidableEq

/-- Oracle fixing the outcome of every external API call of a run:
`selfDid` is `client.me.did`, `getProfile` models
`get_profile` (`none` = raises), `followOk` the success of
`client.follow`, `repostOk` the success of `client.repost` for a post
URI, `getLikes` the list of liker DIDs for a post URI (`none` =
`get_likes` raises), and `hasQuote` whether the quote account is
logged in. -/
structure Api where
  selfDid : String
  getProfile : String → Option Profile
  followOk : String → Bool
  repostOk : String → Bool
  getLikes : String → Option (List String)
  hasQuote : Bool

/-- Observable external actions of a run, in program order. -/
inductive Event where
  | followAuthor (did : String)
  | unrepostE (repostUri : String)
  | repostAttempt (uri : String) (ok : Bool)
  | likeE (uri : String)
  | followLiker (did : String) (ok : Bool)
  | statsReply (uri : String)
  | quoteE (uri : String)
  | markE (uri : String)
deriving DecidableEq

/-- `ensure_follow(client, actor_did)`: fetch the profile (a failure is
caught and ends the call), and issue a follow request only when the
viewer state does not already show a follow. -/
def ensure_follow (api : Api) (did : String) : List Event :=
  match api.getProfile did with
  | none => []
  | some p => if p.viewerFollowing then [] else [Event.followAuthor did]

/-- `repost_post(client, uri, cid)`: returns whether the repost call
succeeded (a failure is caught and reported as `False`). -/
def repost_post (api : Api) (uri : String) : Bool :=
  api.repostOk uri

/-- `unrepost_if_needed(client, post_obj, is_newest)`: only for the
newest item, and only when the viewer state carries a repost reference
with a usable URI, issue an unrepost call (whose own failure is
caught). -/
def unrepost_if_needed (_api : Api) (post : Post) (is_newest : Bool) :
    List Event :=
  if !is_newest then []
  else
    match post.viewer with
    | none => []
    | some v =>
      match v.repost with
      | none => []
      | some r =>
        match r.uri with
        | none => []
        | some ru => [Event.unrepostE ru]

/-- Python truthiness of `getattr(profile, "avatar", None)`: both a
missing avatar and an empty avatar string are falsy. -/
def hasAvatar (p : Profile) : Bool :=
  match p.avatar with
  | none => false
  | some a => !(a == "")

/-- The content-completeness gate of `follow_likers` for one liker DID,
exactly as the loop body checks it: not the acting account, profile
fetch succeeds, has a (truthy) avatar, is not an entirely empty account
(0 posts and 0 followers and 0 following), and is not already
followed. -/
def likerGate (api : Api) (did : String) : Bool :=
  if did = api.selfDid then false
  else
    match api.getProfile did with
    | none => false
    | some p =>
      if !hasAvatar p then false
      else if p.postsCount = 0 ∧ p.followersCount = 0 ∧ p.followsCount = 0 then false
      else !p.viewerFollowing

/-- The loop of `follow_likers` over the liker DIDs: skipped likers
produce no event; for a liker passing the gate a follow request is
issued (its failure is caught) and the new-follow counter is bumped on
success. -/
def followLikersLoop (api : Api) : List String → List Event × Nat
  | [] => ([], 0)
  | did :: rest =>
    let tail := followLikersLoop api rest
    if likerGate api did then
      let ok := api.followOk did
      (Event.followLiker did ok :: tail.1, (if ok then 1 else 0) + tail.2)
    else tail

/-- `follow_likers(client, post_uri)`: fetch the likers (a failure is
caught, yielding 0), then run the follow loop; returns the events and
the number of new follows. -/
def follow_likers (api : Api) (post_uri : String) : List Event × Nat :=
  match api.getLikes post_uri with
  | none => ([], 0)
  | some likes =>
    if likes.isEmpty then ([], 0) else followLikersLoop api likes

/-- `posts.sort(key=get_post_timestamp)`: stable ascending sort by
timestamp string (old to new). -/
def sortPosts (posts : List FeedItem) : List FeedItem :=
  List.insertionSort tsLe posts

/-- `newest_item = posts[-1]` (on the sorted list). -/
def newestItem (posts : List FeedItem) : Option FeedItem :=
  posts.getLast?

/-- `older_items = posts[:-1]`. -/
def olderItems (posts : List FeedItem) : List FeedItem :=
  posts.dropLast

/-- The old-candidate filter: drop the acting account's own posts and
posts still in cooldown. -/
def oldCandidates (posts : List FeedItem) (me : String) (log : Dict) :
    List FeedItem :=
  (olderItems posts).filter
    (fun item => !(item.post.author.did == me) && can_repost item.post.uri log)

/-- `newest_candidate`: the newest post is always usable, as long as it
is not the acting account's own post; no substitute is promoted
otherwise. -/
def newestCandidate (posts : List FeedItem) (me : String) :
    Option FeedItem :=
  match posts.getLast? with
  | none => none
  | some item =>
    if item.post.author.did = me then none else some item

/-- A model of `random.sample(population, k)`: any function that, for
`k ≤ |population|`, returns `k` elements drawn without replacement
(a permutation of a sublist of the population). -/
def SampleOk (f : List FeedItem → Nat → List FeedItem) : Prop :=
  ∀ l k, k ≤ l.length → (f l k).length = k ∧ List.Subperm (f l k) l

/-- `chosen_old`: when there are old candidates, sample
`min(2, len(old_candidates))` of them and re-sort old to new. -/
def chosenOld (f : List FeedItem → Nat → List FeedItem)
    (posts : List FeedItem) (me : String) (log : Dict) : List FeedItem :=
  let oc := oldCandidates posts me log
  if oc.isEmpty then []
  else List.insertionSort tsLe (f oc (min 2 oc.length))

/-- `selected_items`: the sampled old posts first, then the newest
candidate (when present) last. -/
def selectedItems (f : List FeedItem → Nat → List FeedItem)
    (posts : List FeedItem) (me : String) (log : Dict) : List FeedItem :=
  chosenOld f posts me log ++ (newestCandidate posts me).toList

/-- The events emitted while processing one selected item, in program
order: ensure-follow on the author, the conditional unrepost for the
newest item, the repost attempt; when the repost fails the remaining
steps are skipped (`continue`); otherwise the like, the likers
fan-out, the stats reply, the quote post (when the quote account is
logged in), and the cooldown mark for non-newest items. -/
def itemEvents (api : Api) (item : FeedItem) (is_newest : Bool) :
    List Event :=
  let post := item.post
  let ef := ensure_follow api post.author.did
  let eu := unrepost_if_needed api post is_newest
  if repost_post api post.uri then
    ef ++ eu ++ [Event.repostAttempt post.uri true, Event.likeE post.uri]
      ++ (follow_likers api post.uri).1
      ++ [Event.statsReply post.uri]
      ++ (if api.hasQuote then [Event.quoteE post.uri] else [])
      ++ (if is_newest then [] else [Event.markE post.uri])
  else ef ++ eu ++ [Event.repostAttempt post.uri false]

/-- The cooldown-store update performed while processing one selected
item: `mark_reposted` runs exactly when the repost succeeded and the
item is not the newest one. -/
def markStep (api : Api) (tm : TimeModel) (now : Int) (item : FeedItem)
    (is_newest : Bool) (log : Dict) (fs : FS) : Dict × FS :=
  if repost_post api item.post.uri && !is_newest then
    mark_reposted tm now item.post.uri log
  else (log, fs)

/-- The per-item loop of `main` over the selected items (paired with
their `is_newest` flag), threading the in-memory log and the file
state and collecting the event trace. -/
def runItems (api : Api) (tm : TimeModel) (now : Int) :
    List (FeedItem × Bool) → Dict → FS → List Event × Dict × FS
  | [], log, fs => ([], log, fs)
  | (item, nw) :: rest, log, fs =>
    let evs := itemEvents api item nw
    let (log', fs') := markStep api tm now item nw log fs
    let (evs2, log2, fs2) := runItems api tm now rest log' fs'
    (evs ++ evs2, log2, fs2)

/-- One run over an already-sorted feed: process the sampled old items
(flag `false`) and then the newest candidate (flag `true`). -/
def runSelected (api : Api) (tm : TimeModel) (now : Int)
    (f : List FeedItem → Nat → List FeedItem) (posts : List FeedItem)
    (log : Dict) (fs : FS) : List Event × Dict × FS :=
  runItems api tm now
    ((chosenOld f posts api.selfDid log).map (fun item => (item, false))
      ++ (newestCandidate posts api.selfDid).toList.map (fun item => (item, true)))
    log fs

/-- Well-formedness of one in-memory timestamp string: it does not
parse to a timezone-naive datetime. -/
def valOk (tm : TimeModel) (s : String) : Bool :=
  match tm.parse s with
  | some (false, _) => false
  | _ => true

/-- The pure keep-predicate of the cleaning loop on string entries:
the timestamp parses timezone-aware and is at or after the cutoff. -/
def keepB (tm : TimeModel) (cutoff : Int) (p : String × String) : Bool :=
  match tm.parse p.2 with
  | some (true, dt) => decide (cutoff ≤ dt)
  | _ => false

/-- A small concrete instantiation of the `datetime` abstraction, used
to evaluate the embedding on closed inputs: `"aware"` is an aware
timestamp at instant 0, `"naive"` a timezone-naive one, `"old"` an
aware timestamp far in the past, everything else fails to parse. -/
def tmTest : TimeModel where
  parse s :=
    if s = "aware" then some (true, 0)
    else if s = "naive" then some (false, 0)
    else if s = "old" then some (true, -10000000)
    else none
  format _ := "aware"

theorem cleanEntries_ok_mem (tm : TimeModel) (cutoff : Int) :
    ∀ (entries : List (String × JStr)) (c : Dict),
      cleanEntries tm cutoff entries = Except.ok c →
      ∀ p ∈ c, ∃ t, tm.parse p.2 = some (true, t) ∧ cutoff ≤ t := by
  intro entries
  induction entries using cleanEntries.induct tm cutoff with
  | case1 => intro c h p hp; simp [cleanEntries] at h; subst h; simp at hp
  | case2 u rest ih =>
    intro c h p hp
    exact ih c (by simpa [cleanEntries] using h) p hp
  | case3 u ts rest hparse ih =>
    intro c h p hp
    rw [cleanEntries, hparse] at h
    exact ih c h p hp
  | case4 u ts rest dt hparse =>
    intro c h
    rw [cleanEntries, hparse] at h
    cases h
  | case5 u ts rest dt hparse e hrec =>
    intro c h
    rw [cleanEntries, hparse, hrec] at h
    cases h
  | case6 u ts rest dt hparse tail hrec ih =>
    intro c h p hp
    rw [cleanEntries, hparse, hrec] at h
    injection h with h
    subst h
    by_cases hcut : cutoff ≤ dt
    · simp only [if_pos hcut, List.mem_cons] at hp
      rcases hp with rfl | hp
      · exact ⟨dt, hparse, hcut⟩
      · exact ih tail hrec p hp
    · rw [if_neg hcut] at hp
      exact ih tail hrec p hp

theorem cleanEntries_ok_sublist (tm : TimeModel) (cutoff : Int) :
    ∀ (entries : List (String × JStr)) (c : Dict),
      cleanEntries tm cutoff entries = Except.ok c →
      List.Sublist (toJ c) entries := by
  intro entries
  induction entries using cleanEntries.induct tm cutoff with
  | case1 => intro c h; simp [cleanEntries] at h; subst h; simp [toJ]
  | case2 u rest ih =>
    intro c h
    exact List.Sublist.cons _ (ih c (by simpa [cleanEntries] using h))
  | case3 u ts rest hparse ih =>
    intro c h
    rw [cleanEntries, hparse] at h
    exact List.Sublist.cons _ (ih c h)
  | case4 u ts rest dt hparse =>
    intro c h
    rw [cleanEntries, hparse] at h
    cases h
  | case5 u ts rest dt hparse e hrec =>
    intro c h
    rw [cleanEntries, hparse, hrec] at h
    cases h
  | case6 u ts rest dt hparse tail hrec ih =>
    intro c h
    rw [cleanEntries, hparse, hrec] at h
    injection h with h
    subst h
    by_cases hcut : cutoff ≤ dt
    · rw [if_pos hcut]
      exact List.Sublist.cons₂ _ (ih tail hrec)
    · rw [if_neg hcut]
      exact List.Sublist.cons _ (ih tail hrec)

theorem cleanEntries_ok_of_all (tm : TimeModel) (cutoff : Int) :
    ∀ entries : List (String × JStr),
      (∀ p ∈ entries, entryOk tm p = true) →
      ∃ c, cleanEntries tm cutoff entries = Except.ok c := by
  intro entries
  induction entries using cleanEntries.induct tm cutoff with
  | case1 => intro _; exact ⟨[], rfl⟩
  | case2 u rest ih =>
    intro hall
    obtain ⟨c, hc⟩ := ih (fun p hp => hall p (List.mem_cons_of_mem _ hp))
    exact ⟨c, by simpa [cleanEntries] using hc⟩
  | case3 u ts rest hparse ih =>
    intro hall
    obtain ⟨c, hc⟩ := ih (fun p hp => hall p (List.mem_cons_of_mem _ hp))
    exact ⟨c, by rw [cleanEntries, hparse]; exact hc⟩
  | case4 u ts rest dt hparse =>
    intro hall
    have := hall (u, JStr.s ts) (List.mem_cons_self _ _)
    rw [entryOk, hparse] at this
    cases this
  | case5 u ts rest dt hparse e hrec ih =>
    intro hall
    obtain ⟨c, hc⟩ := ih (fun p hp => hall p (List.mem_cons_of_mem _ hp))
    rw [hrec] at hc
    cases hc
  | case6 u ts rest dt hparse tail hrec ih =>
    intro hall
    exact ⟨if cutoff ≤ dt then (u, ts) :: tail else tail,
      by rw [cleanEntries, hparse, hrec]⟩

theorem cleanEntries_toJ (tm : TimeModel) (cutoff : Int) :
    ∀ d : Dict, (∀ p ∈ d, valOk tm p.2 = true) →
      cleanEntries tm cutoff (toJ d) =
        Except.ok (d.filter (keepB tm cutoff)) := by
  intro d
  induction d with
  | nil => intro _; rfl
  | cons e rest ih =>
    intro hv
    obtain ⟨u, v⟩ := e
    have hrest := ih (fun p hp => hv p (List.mem_cons_of_mem _ hp))
    have hhead := hv (u, v) (List.mem_cons_self _ _)
    show cleanEntries tm cutoff ((u, JStr.s v) :: toJ rest) = _
    cases hp : tm.parse v with
    | none =>
      rw [cleanEntries, hp, hrest]
      have : keepB tm cutoff (u, v) = false := by rw [keepB, hp]
      simp [List.filter_cons, this]
    | some bt =>
      obtain ⟨b, t⟩ := bt
      cases b with
      | false =>
        rw [valOk, hp] at hhead
        cases hhead
      | true =>
        rw [cleanEntries, hp, hrest]
        have : keepB tm cutoff (u, v) = decide (cutoff ≤ t) := by rw [keepB, hp]
        by_cases hcut : cutoff ≤ t
        · simp [List.filter_cons, this, hcut]
        · simp [List.filter_cons, this, hcut]

theorem mem_dictSet (uri v : String) :
    ∀ (log : Dict) (p : String × String), p ∈ dictSet log uri v →
      p = (uri, v) ∨ p ∈ log := by
  intro log
  induction log with
  | nil => intro p hp; simp [dictSet] at hp; exact Or.inl hp
  | cons e rest ih =>
    intro p hp
    obtain ⟨k, w⟩ := e
    rw [dictSet] at hp
    by_cases hk : k = uri
    · rw [if_pos hk] at hp
      rcases List.mem_cons.mp hp with rfl | hp
      · exact Or.inl rfl
      · exact Or.inr (List.mem_cons_of_mem _ hp)
    · rw [if_neg hk] at hp
      rcases List.mem_cons.mp hp with rfl | hp
      · exact Or.inr (List.mem_cons_self _ _)
      · rcases ih p hp with h | h
        · exact Or.inl h
        · exact Or.inr (List.mem_cons_of_mem _ h)

theorem lookup_dictSet_filter (uri v : String) (q : String × String → Bool)
    (hq : q (uri, v) = true) :
    ∀ log : Dict,
      List.lookup uri ((dictSet log uri v).filter q) = some v := by
  intro log
  induction log with
  | nil => simp [dictSet, List.filter_cons, hq, List.lookup]
  | cons e rest ih =>
    obtain ⟨k, w⟩ := e
    rw [dictSet]
    by_cases hk : k = uri
    · rw [if_pos hk]
      simp [List.filter_cons, hq, List.lookup]
    · rw [if_neg hk]
      have hne : (uri == k) = false := by
        simp [BEq.beq]
        exact fun h => hk h.symm
      by_cases hq2 : q (k, w) = true
      · simp only [List.filter_cons, hq2, if_true]
        rw [List.lookup, hne]
        exact ih
      · simp only [List.filter_cons, hq2]
        simpa using ih

theorem load_repost_log_eq_of_jobj (tm : TimeModel) (now : Int) (fs : FS)
    (entries : List (String × JStr))
    (hj : load_json fs (JTop.jobj []) = JTop.jobj entries) :
    load_repost_log tm now fs =
      match cleanEntries tm (cutoffOf now) entries with
      | Except.error e => Except.error e
      | Except.ok cleaned =>
        if toJ cleaned = entries then Except.ok (cleaned, fs)
        else Except.ok (cleaned, FS.stored (JTop.jobj (toJ cleaned))) := by
  unfold load_repost_log
  rw [hj]

theorem load_ok_destruct (tm : TimeModel) (now : Int) (fs : FS) (c : Dict)
    (fs' : FS) (h : load_repost_log tm now fs = Except.ok (c, fs')) :
    cleanEntries tm (cutoffOf now) (fileEntries fs) = Except.ok c
    ∧ ((toJ c = fileEntries fs ∧ fs' = fs)
       ∨ (toJ c ≠ fileEntries fs
          ∧ fs' = FS.stored (JTop.jobj (toJ c)))) := by
  cases hj : load_json fs (JTop.jobj []) with
  | jother =>
    rw [show load_repost_log tm now fs = Except.error PyError.attrError by
      unfold load_repost_log; rw [hj]] at h
    cases h
  | jobj entries =>
    rw [load_repost_log_eq_of_jobj tm now fs entries hj] at h
    have hfe : fileEntries fs = entries := by unfold fileEntries; rw [hj]
    cases hc : cleanEntries tm (cutoffOf now) entries with
    | error e => rw [hc] at h; cases h
    | ok cleaned =>
      rw [hc] at h
      have h' : (if toJ cleaned = entries then Except.ok (cleaned, fs)
          else Except.ok (cleaned, FS.stored (JTop.jobj (toJ cleaned))))
          = Except.ok (c, fs') := h
      by_cases heq : toJ cleaned = entries
      · rw [if_pos heq] at h'
        simp only [Except.ok.injEq, Prod.mk.injEq] at h'
        obtain ⟨rfl, rfl⟩ := h'
        rw [hfe]
        exact ⟨hc, Or.inl ⟨heq, rfl⟩⟩
      · rw [if_neg heq] at h'
        simp only [Except.ok.injEq, Prod.mk.injEq] at h'
        obtain ⟨rfl, rfl⟩ := h'
        rw [hfe]
        exact ⟨hc, Or.inr ⟨heq, rfl⟩⟩

/-- C1: whenever `load_repost_log` returns a mapping, every entry's
timestamp parses (timezone-aware) to an instant no older than `now`
minus the 14-day retention window, and whenever the cleaned mapping
differs from the stored entries (some entry was dropped) the pruned
mapping is immediately re-persisted to the file. -/
theorem c1_load_prunes_and_repersists (tm : TimeModel) (now : Int)
    (fs : FS) (c : Dict) (fs' : FS)
    (h : load_repost_log tm now fs = Except.ok (c, fs')) :
    (∀ p ∈ c, ∃ t, tm.parse p.2 = some (true, t) ∧ cutoffOf now ≤ t)
    ∧ (toJ c ≠ fileEntries fs → fs' = FS.stored (JTop.jobj (toJ c))) := by
  obtain ⟨hclean, hcase⟩ := load_ok_destruct tm now fs c fs' h
  refine ⟨cleanEntries_ok_mem tm (cutoffOf now) (fileEntries fs) c hclean, ?_⟩
  intro hne
  rcases hcase with ⟨heq, _⟩ | ⟨_, hfs⟩
  · exact absurd heq hne
  · exact hfs

/-- Witness for C1: a file holding one fresh entry, one unparsable
entry and one expired entry; the load keeps only the fresh entry and
rewrites the file. -/
theorem c1_load_prunes_and_repersists_witness :
    (load_repost_log tmTest 0 (FS.stored (JTop.jobj
        [("a", JStr.s "aware"), ("b", JStr.s "junk"), ("d", JStr.s "old")]))
      = Except.ok ([("a", "aware")], FS.stored (JTop.jobj [("a", JStr.s "aware")])))
    ∧ ((∀ p ∈ [(("a" : String), ("aware" : String))],
          ∃ t, tmTest.parse p.2 = some (true, t) ∧ cutoffOf 0 ≤ t)
       ∧ (toJ [("a", "aware")] ≠ fileEntries (FS.stored (JTop.jobj
            [("a", JStr.s "aware"), ("b", JStr.s "junk"), ("d", JStr.s "old")])) →
          FS.stored (JTop.jobj [("a", JStr.s "aware")])
            = FS.stored (JTop.jobj (toJ [("a", "aware")])))) :=
  ⟨by rfl,
   c1_load_prunes_and_repersists tmTest 0
     (FS.stored (JTop.jobj
        [("a", JStr.s "aware"), ("b", JStr.s "junk"), ("d", JStr.s "old")]))
     [("a", "aware")] (FS.stored (JTop.jobj [("a", JStr.s "aware")]))
     (by rfl)⟩

/-- C10: `load_repost_log` is a pure filter of the persisted mapping:
the returned entries (viewed as JSON entries) form a sublist of the
stored entries, every retained key still maps to its original
timestamp string, and the key set of the result is a subset of the
stored key set — nothing is added and nothing is rewritten. -/
theorem c10_load_is_pure_filter (tm : TimeModel) (now : Int) (fs : FS)
    (c : Dict) (fs' : FS)
    (h : load_repost_log tm now fs = Except.ok (c, fs')) :
    List.Sublist (toJ c) (fileEntries fs)
    ∧ (∀ p ∈ c, (p.1, JStr.s p.2) ∈ fileEntries fs)
    ∧ (∀ u ∈ c.map Prod.fst, u ∈ (fileEntries fs).map Prod.fst) := by
  obtain ⟨hclean, _⟩ := load_ok_destruct tm now fs c fs' h
  have hsub := cleanEntries_ok_sublist tm (cutoffOf now) (fileEntries fs) c hclean
  refine ⟨hsub, ?_, ?_⟩
  · intro p hp
    exact hsub.subset (List.mem_map_of_mem _ hp)
  · intro u hu
    refine (hsub.map Prod.fst).subset ?_
    simpa [toJ, List.map_map, Function.comp] using hu

/-- Witness for C10 at a concrete file: the retained entry appears
unchanged among the stored entries. -/
theorem c10_load_is_pure_filter_witness :
    (load_repost_log tmTest 0 (FS.stored (JTop.jobj
        [("x", JStr.nonStr), ("a", JStr.s "aware")]))
      = Except.ok ([("a", "aware")], FS.stored (JTop.jobj [("a", JStr.s "aware")])))
    ∧ (List.Sublist (toJ [("a", "aware")])
          (fileEntries (FS.stored (JTop.jobj [("x", JStr.nonStr), ("a", JStr.s "aware")])))
       ∧ (∀ p ∈ [(("a" : String), ("aware" : String))],
            (p.1, JStr.s p.2) ∈ fileEntries (FS.stored (JTop.jobj
              [("x", JStr.nonStr), ("a", JStr.s "aware")])))
       ∧ (∀ u ∈ ([("a", "aware")] : Dict).map Prod.fst,
            u ∈ (fileEntries (FS.stored (JTop.jobj
              [("x", JStr.nonStr), ("a", JStr.s "aware")]))).map Prod.fst)) :=
  ⟨by rfl,
   c10_load_is_pure_filter tmTest 0
     (FS.stored (JTop.jobj [("x", JStr.nonStr), ("a", JStr.s "aware")]))
     [("a", "aware")] (FS.stored (JTop.jobj [("a", JStr.s "aware")]))
     (by rfl)⟩

/-- C5 counterexample: `load_repost_log` is not raise-free on every
state of the persisted file.  A file whose JSON decodes to a non-object
value makes `data.items()` raise an uncaught `AttributeError`, and an
entry whose timestamp parses to a timezone-naive datetime makes the
`dt >= cutoff` comparison raise an uncaught `TypeError`. -/
theorem c5_load_raises_counterexample :
    load_repost_log tmTest 0 (FS.stored JTop.jother)
      = Except.error PyError.attrError
    ∧ load_repost_log tmTest 0 (FS.stored (JTop.jobj [("x", JStr.s "naive")]))
      = Except.error PyError.typeError :=
  ⟨rfl, rfl⟩

/-- C5 amended: a missing file and a file whose read/JSON-parse raises
both fail soft to the empty mapping, and over a stored JSON object none
of whose string values parses to a timezone-naive datetime
`load_repost_log` returns normally (dropping only offending entries);
but a non-object JSON file or a naive timestamp makes it raise. -/
theorem c5_fail_soft_amended (tm : TimeModel) (now : Int) :
    load_repost_log tm now FS.absent = Except.ok ([], FS.absent)
    ∧ load_repost_log tm now FS.unreadable = Except.ok ([], FS.unreadable)
    ∧ ∀ entries : List (String × JStr),
        (∀ p ∈ entries, entryOk tm p = true) →
        ∃ c fs', load_repost_log tm now (FS.stored (JTop.jobj entries))
          = Except.ok (c, fs') := by
  refine ⟨rfl, rfl, ?_⟩
  intro entries hall
  obtain ⟨c, hc⟩ := cleanEntries_ok_of_all tm (cutoffOf now) entries hall
  have hload : load_repost_log tm now (FS.stored (JTop.jobj entries)) =
      (if toJ c = entries then Except.ok (c, FS.stored (JTop.jobj entries))
       else Except.ok (c, FS.stored (JTop.jobj (toJ c)))) := by
    rw [load_repost_log_eq_of_jobj tm now (FS.stored (JTop.jobj entries))
      entries rfl, hc]
  by_cases heq : toJ c = entries
  · exact ⟨c, FS.stored (JTop.jobj entries), by rw [hload, if_pos heq]⟩
  · exact ⟨c, FS.stored (JTop.jobj (toJ c)), by rw [hload, if_neg heq]⟩

/-- Witness for the amended C5: a stored object with a non-string
value, an unparsable timestamp and a fresh aware timestamp loads
without raising. -/
theorem c5_fail_soft_amended_witness :
    (∀ p ∈ [("a", JStr.s "aware"), ("b", JStr.nonStr), ("j", JStr.s "junk")],
        entryOk tmTest p = true)
    ∧ ∃ c fs', load_repost_log tmTest 0 (FS.stored (JTop.jobj
        [("a", JStr.s "aware"), ("b", JStr.nonStr), ("j", JStr.s "junk")]))
        = Except.ok (c, fs') :=
  ⟨by decide,
   (c5_fail_soft_amended tmTest 0).2.2
     [("a", JStr.s "aware"), ("b", JStr.nonStr), ("j", JStr.s "junk")]
     (by decide)⟩

/-- C4: after `mark_reposted(uri, log)` at instant `now`, an
immediately following `load_repost_log` (at any instant `nowL` within
the retention window, over a mapping whose timestamps are well-formed
and with the round-tripping `isoformat`/`fromisoformat` behaviour of
`datetime`) returns a mapping containing `uri` mapped to the exact
timestamp string written by the mark, that timestamp lies within the
retention window, and `can_repost uri` is false on the loaded
mapping. -/
theorem c4_mark_blocks_next_load (tm : TimeModel) (now nowL : Int)
    (uri : String) (log : Dict)
    (hwf : ∀ p ∈ log, valOk tm p.2 = true)
    (hfmt : tm.parse (tm.format now) = some (true, now))
    (hwin : nowL ≤ now + COOLDOWN_DAYS * SECONDS_PER_DAY) :
    ∃ c fs', load_repost_log tm nowL (mark_reposted tm now uri log).2
        = Except.ok (c, fs')
      ∧ List.lookup uri c = some (tm.format now)
      ∧ can_repost uri c = false
      ∧ cutoffOf nowL ≤ now := by
  have hcut : cutoffOf nowL ≤ now := by
    simp only [cutoffOf, COOLDOWN_DAYS, SECONDS_PER_DAY] at hwin ⊢
    omega
  have hkeep : keepB tm (cutoffOf nowL) (uri, tm.format now) = true := by
    simp only [keepB, hfmt]
    exact decide_eq_true hcut
  have hv' : ∀ p ∈ dictSet log uri (tm.format now), valOk tm p.2 = true := by
    intro p hp
    rcases mem_dictSet uri (tm.format now) log p hp with rfl | hp2
    · simp only [valOk, hfmt]
    · exact hwf p hp2
  have hclean := cleanEntries_toJ tm (cutoffOf nowL)
    (dictSet log uri (tm.format now)) hv'
  have hlook : List.lookup uri
      ((dictSet log uri (tm.format now)).filter (keepB tm (cutoffOf nowL)))
      = some (tm.format now) :=
    lookup_dictSet_filter uri (tm.format now) _ hkeep log
  have hmark : (mark_reposted tm now uri log).2
      = FS.stored (JTop.jobj (toJ (dictSet log uri (tm.format now)))) := rfl
  have hload : load_repost_log tm nowL (mark_reposted tm now uri log).2 =
      (if toJ ((dictSet log uri (tm.format now)).filter
            (keepB tm (cutoffOf nowL)))
          = toJ (dictSet log uri (tm.format now))
       then Except.ok
          ((dictSet log uri (tm.format now)).filter (keepB tm (cutoffOf nowL)),
           (mark_reposted tm now uri log).2)
       else Except.ok
          ((dictSet log uri (tm.format now)).filter (keepB tm (cutoffOf nowL)),
           FS.stored (JTop.jobj (toJ ((dictSet log uri (tm.format now)).filter
             (keepB tm (cutoffOf nowL))))))) := by
    rw [hmark, load_repost_log_eq_of_jobj tm nowL
      (FS.stored (JTop.jobj (toJ (dictSet log uri (tm.format now)))))
      (toJ (dictSet log uri (tm.format now))) rfl, hclean]
  have hcan : can_repost uri
      ((dictSet log uri (tm.format now)).filter (keepB tm (cutoffOf nowL)))
      = false := by
    simp only [can_repost, hlook, Option.isNone]
  by_cases heq : toJ ((dictSet log uri (tm.format now)).filter
      (keepB tm (cutoffOf nowL))) = toJ (dictSet log uri (tm.format now))
  · exact ⟨_, (mark_reposted tm now uri log).2,
      by rw [hload, if_pos heq], hlook, hcan, hcut⟩
  · exact ⟨_, FS.stored (JTop.jobj (toJ ((dictSet log uri
        (tm.format now)).filter (keepB tm (cutoffOf nowL))))),
      by rw [hload, if_neg heq], hlook, hcan, hcut⟩

/-- Witness for C4: marking `"u"` over a one-entry mapping at instant 0
and loading right away finds `"u"` present and not repostable. -/
theorem c4_mark_blocks_next_load_witness :
    ((∀ p ∈ [(("w" : String), ("aware" : String))], valOk tmTest p.2 = true)
     ∧ tmTest.parse (tmTest.format 0) = some (true, 0)
     ∧ (0 : Int) ≤ 0 + COOLDOWN_DAYS * SECONDS_PER_DAY)
    ∧ ∃ c fs', load_repost_log tmTest 0 (mark_reposted tmTest 0 "u"
          [("w", "aware")]).2 = Except.ok (c, fs')
        ∧ List.lookup "u" c = some (tmTest.format 0)
        ∧ can_repost "u" c = false
        ∧ cutoffOf 0 ≤ 0 :=
  ⟨⟨by decide, by decide, by decide⟩,
   c4_mark_blocks_next_load tmTest 0 0 "u" [("w", "aware")]
     (by decide) (by decide) (by decide)⟩

theorem followLikersLoop_mem (api : Api) (d : String) (ok : Bool) :
    ∀ dids : List String,
      Event.followLiker d ok ∈ (followLikersLoop api dids).1 ↔
        (d ∈ dids ∧ likerGate api d = true ∧ ok = api.followOk d) := by
  intro dids
  induction dids with
  | nil => simp [followLikersLoop]
  | cons did rest ih =>
    rw [followLikersLoop]
    by_cases hg : likerGate api did = true
    · rw [if_pos hg]
      simp only [List.mem_cons, Event.followLiker.injEq]
      constructor
      · rintro (⟨rfl, rfl⟩ | htail)
        · exact ⟨Or.inl rfl, hg, rfl⟩
        · obtain ⟨hmem, hgate, hok⟩ := ih.mp htail
          exact ⟨Or.inr hmem, hgate, hok⟩
      · rintro ⟨hmem, hgate, hok⟩
        rcases hmem with rfl | hmem
        · exact Or.inl ⟨rfl, hok⟩
        · exact Or.inr (ih.mpr ⟨hmem, hgate, hok⟩)
    · rw [if_neg hg]
      rw [ih]
      constructor
      · rintro ⟨hmem, hgate, hok⟩
        exact ⟨List.mem_cons_of_mem _ hmem, hgate, hok⟩
      · rintro ⟨hmem, hgate, hok⟩
        rcases List.mem_cons.mp hmem with rfl | hmem
        · exact absurd hgate hg
        · exact ⟨hmem, hgate, hok⟩

theorem followLikersLoop_count (api : Api) :
    ∀ dids : List String,
      (followLikersLoop api dids).2
        = dids.countP (fun d => likerGate api d && api.followOk d) := by
  intro dids
  induction dids with
  | nil => simp [followLikersLoop]
  | cons did rest ih =>
    rw [followLikersLoop, List.countP_cons]
    by_cases hg : likerGate api did = true
    · rw [if_pos hg]
      simp only [hg, Bool.true_and]
      by_cases hok : api.followOk did = true
      · simp [hok, ih, Nat.add_comm]
      · simp only [Bool.not_eq_true] at hok
        simp [hok, ih]
    · rw [if_neg hg]
      simp only [Bool.not_eq_true] at hg
      simp [hg, ih]

theorem follow_likers_mem (api : Api) (u : String) (d : String) (ok : Bool) :
    Event.followLiker d ok ∈ (follow_likers api u).1 ↔
      (d ∈ (api.getLikes u).getD [] ∧ likerGate api d = true
       ∧ ok = api.followOk d) := by
  cases hl : api.getLikes u with
  | none => simp [follow_likers, hl]
  | some likes =>
    by_cases he : likes.isEmpty
    · rw [List.isEmpty_iff] at he
      subst he
      simp [follow_likers, hl, followLikersLoop]
    · simp only [follow_likers, hl]
      rw [if_neg he]
      simpa using followLikersLoop_mem api d ok likes

theorem follow_likers_count (api : Api) (u : String) :
    (follow_likers api u).2
      = ((api.getLikes u).getD []).countP
          (fun d => likerGate api d && api.followOk d) := by
  cases hl : api.getLikes u with
  | none => simp [follow_likers, hl]
  | some likes =>
    by_cases he : likes.isEmpty
    · rw [List.isEmpty_iff] at he
      subst he
      simp [follow_likers, hl, followLikersLoop]
    · simp only [follow_likers, hl]
      rw [if_neg he]
      simpa using followLikersLoop_count api likes

/-- The follow gate as claim C2 words it (for comparison with the
source's gate): the liker has a profile image AND has nonzero post,
follower, AND following counts, and is not already followed. -/
def claimGateC2 (api : Api) (did : String) : Bool :=
  match api.getProfile did with
  | none => false
  | some p =>
    hasAvatar p && !(p.postsCount == 0) && !(p.followersCount == 0)
      && !(p.followsCount == 0) && !p.viewerFollowing

/-- The profile of the concrete liker `"bob"`: avatar present, 1 post,
0 followers, 0 following, not yet followed. -/
def bobProfile : Profile :=
  { avatar := some "pic", postsCount := 1, followersCount := 0,
    followsCount := 0, viewerFollowing := false }

/-- A concrete API oracle exhibiting the C2 divergence: liker `"bob"`
has an avatar, 1 post, 0 followers, 0 following, is not yet followed,
and the follow call succeeds. -/
def apiC2 : Api where
  selfDid := "me"
  getProfile := fun d => if d = "bob" then some bobProfile else none
  followOk := fun _ => true
  repostOk := fun _ => true
  getLikes := fun u => if u = "p1" then some ["bob"] else none
  hasQuote := false

/-- C2 counterexample: the code issues a follow request for a liker
with zero follower and following counts (it only skips accounts with
all three counts zero), so "a follow request is issued only if the
liker has nonzero post, follower, and following counts" is false. -/
theorem c2_gate_counterexample :
    Event.followLiker "bob" true ∈ (follow_likers apiC2 "p1").1
    ∧ claimGateC2 apiC2 "bob" = false
    ∧ (apiC2.getProfile "bob").map Profile.followersCount = some 0 :=
  ⟨by decide, by decide, by decide⟩

/-- C2 amended: in the likers fan-out a follow request is issued for a
liker exactly when the liker is not the acting account, the profile
fetch succeeds, the profile has a (truthy) avatar, the account is not
entirely empty (not all of post/follower/following counts zero), and it
is not already followed; the new-follow count is computed over the
whole liker list with per-actor failure isolation (a failing follow
contributes 0 but does not stop the loop). -/
theorem c2_follow_likers_gate (api : Api) (u : String) :
    (∀ d ok, Event.followLiker d ok ∈ (follow_likers api u).1 ↔
      (d ∈ (api.getLikes u).getD [] ∧ likerGate api d = true
       ∧ ok = api.followOk d))
    ∧ (follow_likers api u).2
        = ((api.getLikes u).getD []).countP
            (fun d => likerGate api d && api.followOk d)
    ∧ (∀ d p, api.getProfile d = some p →
        (likerGate api d = true ↔
          (d ≠ api.selfDid ∧ hasAvatar p = true
           ∧ ¬(p.postsCount = 0 ∧ p.followersCount = 0 ∧ p.followsCount = 0)
           ∧ p.viewerFollowing = false))) := by
  refine ⟨follow_likers_mem api u, follow_likers_count api u, ?_⟩
  intro d p hp
  rw [likerGate]
  by_cases hself : d = api.selfDid
  · rw [if_pos hself]
    simp [hself]
  · rw [if_neg hself, hp]
    by_cases hav : hasAvatar p = true
    · simp only [hav, Bool.not_true, Bool.false_eq_true, if_false]
      by_cases hempty : p.postsCount = 0 ∧ p.followersCount = 0 ∧ p.followsCount = 0
      · rw [if_pos hempty]
        simp [hself, hav, hempty]
      · rw [if_neg hempty]
        simp [hself, hav, hempty]
    · simp only [Bool.not_eq_true] at hav
      simp [hself, hav]

/-- Witness for the amended C2 at the concrete oracle: `"bob"` passes
the code's gate, one follow happens, and the gate characterization
holds at bob's profile. -/
theorem c2_follow_likers_gate_witness :
    (apiC2.getProfile "bob" = some bobProfile)
    ∧ (likerGate apiC2 "bob" = true ↔
        ("bob" ≠ apiC2.selfDid
         ∧ hasAvatar bobProfile = true
         ∧ ¬(bobProfile.postsCount = 0 ∧ bobProfile.followersCount = 0
             ∧ bobProfile.followsCount = 0)
         ∧ bobProfile.viewerFollowing = false)) :=
  ⟨by decide,
   (c2_follow_likers_gate apiC2 "p1").2.2 "bob" bobProfile (by decide)⟩

/-- A concrete `random.sample` instance used by witnesses: take the
first `k` elements. -/
def sampleTake : List FeedItem → Nat → List FeedItem := fun l k => l.take k

theorem sampleTake_ok : SampleOk sampleTake := by
  intro l k hk
  refine ⟨?_, (List.take_sublist k l).subperm⟩
  simp [sampleTake, List.length_take, Nat.min_eq_left hk]

theorem oldCandidates_sublist (posts : List FeedItem) (me : String)
    (log : Dict) :
    List.Sublist (oldCandidates posts me log) posts.dropLast :=
  List.filter_sublist _

theorem mem_oldCandidates_not_self (posts : List FeedItem) (me : String)
    (log : Dict) :
    ∀ it ∈ oldCandidates posts me log, it.post.author.did ≠ me := by
  intro it hit
  obtain ⟨-, hcond⟩ := List.mem_filter.mp hit
  rw [Bool.and_eq_true] at hcond
  simpa [Bool.not_eq_true', beq_eq_false_iff_ne] using hcond.1

theorem mem_oldCandidates_can_repost (posts : List FeedItem) (me : String)
    (log : Dict) :
    ∀ it ∈ oldCandidates posts me log, can_repost it.post.uri log = true := by
  intro it hit
  obtain ⟨-, hcond⟩ := List.mem_filter.mp hit
  rw [Bool.and_eq_true] at hcond
  exact hcond.2

theorem chosenOld_subperm (f : List FeedItem → Nat → List FeedItem)
    (posts : List FeedItem) (me : String) (log : Dict) (hf : SampleOk f) :
    List.Subperm (chosenOld f posts me log) (oldCandidates posts me log) := by
  simp only [chosenOld]
  by_cases he : (oldCandidates posts me log).isEmpty = true
  · rw [if_pos he]
    exact List.nil_subperm
  · rw [if_neg he]
    obtain ⟨-, hsub⟩ := hf (oldCandidates posts me log)
      (min 2 (oldCandidates posts me log).length) (Nat.min_le_right _ _)
    exact ((List.perm_insertionSort tsLe _).subperm).trans hsub

theorem chosenOld_length_le (f : List FeedItem → Nat → List FeedItem)
    (posts : List FeedItem) (me : String) (log : Dict) (hf : SampleOk f) :
    (chosenOld f posts me log).length
      ≤ min 2 (oldCandidates posts me log).length := by
  simp only [chosenOld]
  by_cases he : (oldCandidates posts me log).isEmpty = true
  · rw [if_pos he]
    exact Nat.zero_le _
  · rw [if_neg he]
    obtain ⟨hlen, -⟩ := hf (oldCandidates posts me log)
      (min 2 (oldCandidates posts me log).length) (Nat.min_le_right _ _)
    rw [(List.perm_insertionSort tsLe _).length_eq, hlen]

theorem newestCandidate_some (posts : List FeedItem) (me : String)
    (it : FeedItem) :
    newestCandidate posts me = some it →
      posts.getLast? = some it ∧ it.post.author.did ≠ me := by
  unfold newestCandidate
  cases hl : posts.getLast? with
  | none => intro h; cases h
  | some x =>
    show (if x.post.author.did = me then none else some x) = some it → _
    by_cases hx : x.post.author.did = me
    · rw [if_pos hx]
      intro h
      cases h
    · rw [if_neg hx]
      intro h
      injection h with h
      subst h
      exact ⟨rfl, hx⟩

theorem newestCandidate_self_none (posts : List FeedItem) (me : String)
    (l : FeedItem) (hl : posts.getLast? = some l)
    (hself : l.post.author.did = me) :
    newestCandidate posts me = none := by
  unfold newestCandidate
  rw [hl]
  show (if l.post.author.did = me then none else some l) = none
  rw [if_pos hself]

theorem sorted_getLast_max :
    ∀ l : List FeedItem, List.Sorted tsLe l →
      ∀ x, l.getLast? = some x → ∀ j ∈ l, tsLe j x := by
  intro l
  induction l with
  | nil => intro _ x hx; simp at hx
  | cons a t ih =>
    intro hs x hx j hj
    cases t with
    | nil =>
      simp only [List.getLast?_singleton, Option.some.injEq] at hx
      subst hx
      simp only [List.mem_singleton] at hj
      subst hj
      show get_post_timestamp j ≤ get_post_timestamp j
      exact le_refl _
    | cons b t' =>
      rw [List.getLast?_cons_cons] at hx
      rcases List.mem_cons.mp hj with rfl | hj'
      · obtain ⟨hne, rfl⟩ := List.mem_getLast?_eq_getLast hx
        exact (List.sorted_cons.mp hs).1 _ (List.getLast_mem hne)
      · exact ih (List.sorted_cons.mp hs).2 x hx j hj'

/-- A concrete external post: authored by `"alice"`, timestamp `"a"`. -/
def extPost : FeedItem :=
  { post := { uri := "u1", cid := "c1", author := { did := "alice" },
              createdAt := some "a", indexedAt := none, viewer := none } }

/-- A concrete self-authored post of the acting account `"me"`, with
the strictly latest timestamp `"b"`. -/
def selfPost : FeedItem :=
  { post := { uri := "u2", cid := "c2", author := { did := "me" },
              createdAt := some "b", indexedAt := none, viewer := none } }

/-- A second concrete external post: authored by `"carol"`,
timestamp `"ab"`. -/
def extPost2 : FeedItem :=
  { post := { uri := "u3", cid := "c3", author := { did := "carol" },
              createdAt := some "ab", indexedAt := none, viewer := none } }

/-- C3 counterexample: on the sorted feed `[extPost, selfPost]` whose
newest (last) item is self-authored, the code produces NO pinned
candidate at all — the most-recent non-self item `extPost` is not
promoted to pinned, contradicting the claim that the self-filter runs
first and the most-recent remaining item becomes the pinned
candidate. -/
theorem c3_pinned_counterexample :
    List.Sorted tsLe [extPost, selfPost]
    ∧ selfPost.post.author.did = "me"
    ∧ extPost.post.author.did ≠ "me"
    ∧ newestCandidate [extPost, selfPost] "me" = none
    ∧ newestCandidate [extPost, selfPost] "me" ≠ some extPost := by
  have hab : tsLe extPost selfPost := by
    show get_post_timestamp extPost ≤ get_post_timestamp selfPost
    rw [show get_post_timestamp extPost = "a" from rfl,
        show get_post_timestamp selfPost = "b" from rfl,
        String.le_iff_toList_le]
    decide
  refine ⟨?_, rfl, by decide, rfl, by decide⟩
  rw [List.sorted_cons]
  refine ⟨?_, List.sorted_singleton _⟩
  intro b hb
  rw [List.mem_singleton] at hb
  subst hb
  exact hab

/-- C3 amended: no item selected for a run is ever authored by the
acting account; the pinned candidate, when present, is the newest
(timestamp-maximal) item of the sorted feed and is not self-authored;
and when the feed's newest item IS self-authored there is no pinned
candidate at all — no substitute is promoted. -/
theorem c3_selector_self_guard (f : List FeedItem → Nat → List FeedItem)
    (posts : List FeedItem) (me : String) (log : Dict)
    (hf : SampleOk f) (hs : List.Sorted tsLe posts) :
    (∀ it ∈ selectedItems f posts me log, it.post.author.did ≠ me)
    ∧ (∀ it, newestCandidate posts me = some it →
        (it ∈ posts ∧ it.post.author.did ≠ me
         ∧ ∀ j ∈ posts, get_post_timestamp j ≤ get_post_timestamp it))
    ∧ (∀ l, posts.getLast? = some l → l.post.author.did = me →
        newestCandidate posts me = none) := by
  refine ⟨?_, ?_, ?_⟩
  · intro it hit
    rw [selectedItems, List.mem_append] at hit
    rcases hit with hold | hnew
    · exact mem_oldCandidates_not_self posts me log it
        ((chosenOld_subperm f posts me log hf).subset hold)
    · rw [Option.mem_toList, Option.mem_def] at hnew
      exact (newestCandidate_some posts me it hnew).2
  · intro it hit
    obtain ⟨hlast, hne⟩ := newestCandidate_some posts me it hit
    obtain ⟨h0, rfl⟩ := List.mem_getLast?_eq_getLast hlast
    exact ⟨List.getLast_mem h0, hne,
      sorted_getLast_max posts hs _ hlast⟩
  · exact fun l hl hself => newestCandidate_self_none posts me l hl hself

/-- Witness for the amended C3: on the concrete sorted feed whose
newest item is self-authored, no selected item is self-authored and
there is no pinned candidate. -/
theorem c3_selector_self_guard_witness :
    (∀ it ∈ selectedItems sampleTake [extPost, selfPost] "me" [],
        it.post.author.did ≠ "me")
    ∧ newestCandidate [extPost, selfPost] "me" = none := by
  have hsorted : List.Sorted tsLe [extPost, selfPost] := by
    rw [List.sorted_cons]
    refine ⟨?_, List.sorted_singleton _⟩
    intro b hb
    rw [List.mem_singleton] at hb
    subst hb
    show get_post_timestamp extPost ≤ get_post_timestamp selfPost
    rw [show get_post_timestamp extPost = "a" from rfl,
        show get_post_timestamp selfPost = "b" from rfl,
        String.le_iff_toList_le]
    decide
  have h := c3_selector_self_guard sampleTake [extPost, selfPost] "me" []
    sampleTake_ok hsorted
  exact ⟨h.1, h.2.2 selfPost rfl rfl⟩

/-- C8 amended: the sampled-older list has size at most
`min 2 |eligible older items|` and is drawn without replacement (a
permutation of a sublist of the eligible older set); when the feed
carries no duplicate URIs the selector's output contains no duplicate
identifiers, the pinned item in particular never being one of the
sampled older items — but a feed repeating a URI can defeat that, see
the counterexample. -/
theorem c8_sample_without_replacement
    (f : List FeedItem → Nat → List FeedItem) (posts : List FeedItem)
    (me : String) (log : Dict) (hf : SampleOk f)
    (hn : (posts.map (fun it => it.post.uri)).Nodup) :
    (chosenOld f posts me log).length
      ≤ min 2 (oldCandidates posts me log).length
    ∧ List.Subperm (chosenOld f posts me log) (oldCandidates posts me log)
    ∧ ((selectedItems f posts me log).map (fun it => it.post.uri)).Nodup := by
  refine ⟨chosenOld_length_le f posts me log hf,
    chosenOld_subperm f posts me log hf, ?_⟩
  rw [selectedItems, List.map_append, List.nodup_append]
  have hchosen_sub : ((chosenOld f posts me log).map (fun it => it.post.uri))
      ⊆ (posts.dropLast.map (fun it => it.post.uri)) :=
    List.map_subset _ (fun _ hx =>
      (oldCandidates_sublist posts me log).subset
        ((chosenOld_subperm f posts me log hf).subset hx))
  have hdrop : (posts.dropLast.map (fun it => it.post.uri)).Nodup :=
    hn.sublist ((List.dropLast_sublist posts).map _)
  refine ⟨?_, ?_, ?_⟩
  · obtain ⟨l, hp, hsub⟩ := chosenOld_subperm f posts me log hf
    have hsub2 : List.Sublist (l.map (fun it => it.post.uri))
        (posts.dropLast.map (fun it => it.post.uri)) :=
      ((hsub.trans (oldCandidates_sublist posts me log)).map _)
    exact (hp.map _).nodup_iff.mp (hdrop.sublist hsub2)
  · cases hnc : newestCandidate posts me <;> simp
  · intro u hu1 hu2
    cases hnc : newestCandidate posts me with
    | none =>
      rw [hnc] at hu2
      simp at hu2
    | some x =>
      rw [hnc] at hu2
      simp only [Option.toList_some, List.map_cons, List.map_nil,
        List.mem_singleton] at hu2
      subst hu2
      obtain ⟨hlast, -⟩ := newestCandidate_some posts me x hnc
      have hsplit := List.dropLast_append_getLast? x hlast
      rw [← hsplit, List.map_append] at hn
      have hdisj := List.disjoint_of_nodup_append hn
      exact hdisj (hchosen_sub hu1) (by simp)

/-- Witness for C8 on a concrete three-item feed with distinct URIs. -/
theorem c8_sample_without_replacement_witness :
    (([extPost, extPost2, selfPost].map (fun it => it.post.uri)).Nodup)
    ∧ ((chosenOld sampleTake [extPost, extPost2, selfPost] "me" []).length
        ≤ min 2 (oldCandidates [extPost, extPost2, selfPost] "me" []).length
       ∧ List.Subperm (chosenOld sampleTake [extPost, extPost2, selfPost] "me" [])
           (oldCandidates [extPost, extPost2, selfPost] "me" [])
       ∧ ((selectedItems sampleTake [extPost, extPost2, selfPost] "me" []).map
           (fun it => it.post.uri)).Nodup) :=
  ⟨by decide,
   c8_sample_without_replacement sampleTake [extPost, extPost2, selfPost]
     "me" [] sampleTake_ok (by decide)⟩

theorem ensure_follow_shape (api : Api) (did : String) :
    ∀ e ∈ ensure_follow api did, e = Event.followAuthor did := by
  intro e he
  cases hp : api.getProfile did with
  | none => simp [ensure_follow, hp] at he
  | some p =>
    by_cases hf : p.viewerFollowing = true
    · simp [ensure_follow, hp, hf] at he
    · simp [ensure_follow, hp, hf] at he
      exact he

theorem unrepost_shape (api : Api) (post : Post) (nw : Bool) :
    ∀ e ∈ unrepost_if_needed api post nw, ∃ ru, e = Event.unrepostE ru := by
  intro e he
  cases nw with
  | false => simp [unrepost_if_needed] at he
  | true =>
    cases hv : post.viewer with
    | none => simp [unrepost_if_needed, hv] at he
    | some v =>
      cases hr : v.repost with
      | none => simp [unrepost_if_needed, hv, hr] at he
      | some r =>
        cases hru : r.uri with
        | none => simp [unrepost_if_needed, hv, hr, hru] at he
        | some ru =>
          simp [unrepost_if_needed, hv, hr, hru] at he
          exact ⟨ru, he⟩

theorem followLikersLoop_shape (api : Api) :
    ∀ likes : List String, ∀ e ∈ (followLikersLoop api likes).1,
      ∃ d ok, e = Event.followLiker d ok := by
  intro likes
  induction likes with
  | nil => intro e he; simp [followLikersLoop] at he
  | cons d rest ih =>
    intro e he
    rw [followLikersLoop] at he
    by_cases hg : likerGate api d = true
    · rw [if_pos hg] at he
      rcases List.mem_cons.mp he with rfl | htail
      · exact ⟨d, api.followOk d, rfl⟩
      · exact ih e htail
    · rw [if_neg hg] at he
      exact ih e he

theorem follow_likers_shape (api : Api) (u : String) :
    ∀ e ∈ (follow_likers api u).1, ∃ d ok, e = Event.followLiker d ok := by
  intro e he
  cases hl : api.getLikes u with
  | none => simp [follow_likers, hl] at he
  | some likes =>
    by_cases hle : likes.isEmpty = true
    · simp [follow_likers, hl, hle] at he
    · simp only [follow_likers, hl] at he
      rw [if_neg hle] at he
      exact followLikersLoop_shape api likes e he

theorem markE_mem_itemEvents (api : Api) (it : FeedItem) (nw : Bool)
    (u : String) :
    Event.markE u ∈ itemEvents api it nw ↔
      (nw = false ∧ it.post.uri = u ∧ api.repostOk it.post.uri = true) := by
  have hef : Event.markE u ∉ ensure_follow api it.post.author.did :=
    fun hmem => Event.noConfusion (ensure_follow_shape api _ _ hmem)
  have heu : Event.markE u ∉ unrepost_if_needed api it.post nw := by
    intro hmem
    obtain ⟨ru, h⟩ := unrepost_shape api it.post nw _ hmem
    exact Event.noConfusion h
  have hfl : Event.markE u ∉ (follow_likers api it.post.uri).1 := by
    intro hmem
    obtain ⟨d, ok, h⟩ := follow_likers_shape api it.post.uri _ hmem
    exact Event.noConfusion h
  unfold itemEvents
  by_cases hok : repost_post api it.post.uri = true
  · rw [if_pos hok]
    rw [repost_post] at hok
    cases nw with
    | true =>
      cases hq : api.hasQuote <;>
        simp [List.mem_append, hef, heu, hfl]
    | false =>
      cases hq : api.hasQuote <;>
        simp [List.mem_append, hef, heu, hfl, hok, eq_comm]
  · rw [if_neg hok]
    rw [repost_post] at hok
    simp only [Bool.not_eq_true] at hok
    simp [List.mem_append, hef, heu, hok]

theorem runItems_cons (api : Api) (tm : TimeModel) (now : Int)
    (it : FeedItem) (nw : Bool) (rest : List (FeedItem × Bool))
    (log : Dict) (fs : FS) :
    runItems api tm now ((it, nw) :: rest) log fs
      = (itemEvents api it nw
          ++ (runItems api tm now rest (markStep api tm now it nw log fs).1
              (markStep api tm now it nw log fs).2).1,
         (runItems api tm now rest (markStep api tm now it nw log fs).1
              (markStep api tm now it nw log fs).2).2) := rfl

theorem runItems_markE (api : Api) (tm : TimeModel) (now : Int) :
    ∀ (l : List (FeedItem × Bool)) (log : Dict) (fs : FS) (u : String),
      Event.markE u ∈ (runItems api tm now l log fs).1 ↔
        ∃ p ∈ l, p.2 = false ∧ p.1.post.uri = u
          ∧ api.repostOk p.1.post.uri = true := by
  intro l
  induction l with
  | nil => intro log fs u; simp [runItems]
  | cons hd rest ih =>
    intro log fs u
    obtain ⟨it, nw⟩ := hd
    rw [runItems_cons]
    simp only [List.mem_append, markE_mem_itemEvents, ih, List.mem_cons]
    constructor
    · rintro (⟨hnw, huri, hok⟩ | ⟨p, hp, hrest⟩)
      · exact ⟨(it, nw), Or.inl rfl, hnw, huri, hok⟩
      · exact ⟨p, Or.inr hp, hrest⟩
    · rintro ⟨p, hp | hp, hrest⟩
      · subst hp
        exact Or.inl hrest
      · exact Or.inr ⟨p, hp, hrest⟩

/-- C6: the pinned/newest item is never cooldown-marked (no mark event
ever arises from an item processed with the newest flag); a sampled
older item is marked exactly when its repost succeeded, with the mark
event strictly after the successful repost attempt in the item's
trace; and over a whole run a mark event for `u` occurs iff some
sampled older item has URI `u` and its repost succeeded. -/
theorem c6_mark_policy (api : Api) (tm : TimeModel) (now : Int)
    (f : List FeedItem → Nat → List FeedItem) (posts : List FeedItem)
    (log : Dict) (fs : FS) (u : String) :
    (∀ it u2, Event.markE u2 ∉ itemEvents api it true)
    ∧ (∀ it, Event.markE it.post.uri ∈ itemEvents api it false ↔
        api.repostOk it.post.uri = true)
    ∧ (∀ it, api.repostOk it.post.uri = true →
        ∃ l1 l2, itemEvents api it false
          = l1 ++ [Event.repostAttempt it.post.uri true] ++ l2
            ++ [Event.markE it.post.uri])
    ∧ (Event.markE u ∈ (runSelected api tm now f posts log fs).1 ↔
        ∃ it, it ∈ chosenOld f posts api.selfDid log
          ∧ it.post.uri = u ∧ api.repostOk it.post.uri = true) := by
  refine ⟨?_, ?_, ?_, ?_⟩
  · intro it u2 hmem
    have h := (markE_mem_itemEvents api it true u2).mp hmem
    simp at h
  · intro it
    rw [markE_mem_itemEvents]
    simp
  · intro it hok
    refine ⟨ensure_follow api it.post.author.did
        ++ unrepost_if_needed api it.post false,
      [Event.likeE it.post.uri] ++ (follow_likers api it.post.uri).1
        ++ [Event.statsReply it.post.uri]
        ++ (if api.hasQuote then [Event.quoteE it.post.uri] else []), ?_⟩
    simp [itemEvents, repost_post, hok, List.append_assoc]
  · rw [runSelected, runItems_markE]
    constructor
    · rintro ⟨p, hp, hflag, huri, hok⟩
      rw [List.mem_append] at hp
      rcases hp with hp | hp
      · rw [List.mem_map] at hp
        obtain ⟨it, hit, rfl⟩ := hp
        exact ⟨it, hit, huri, hok⟩
      · rw [List.mem_map] at hp
        obtain ⟨it, hit, rfl⟩ := hp
        simp at hflag
    · rintro ⟨it, hit, huri, hok⟩
      exact ⟨(it, false),
        List.mem_append_left _ (List.mem_map_of_mem _ hit), rfl, huri, hok⟩

/-- A concrete API oracle for run-loop witnesses: every call succeeds
except reposting the post with URI `"ufail"`. -/
def apiRun : Api where
  selfDid := "me"
  getProfile := fun _ => none
  followOk := fun _ => true
  repostOk := fun u => !(u == "ufail")
  getLikes := fun _ => none
  hasQuote := false

/-- Witness for C6 at the concrete oracle and feed. -/
theorem c6_mark_policy_witness :
    (apiRun.repostOk extPost.post.uri = true)
    ∧ (∃ l1 l2, itemEvents apiRun extPost false
        = l1 ++ [Event.repostAttempt extPost.post.uri true] ++ l2
          ++ [Event.markE extPost.post.uri])
    ∧ (∀ u2, Event.markE u2 ∉ itemEvents apiRun extPost true)
    ∧ (Event.markE "u1" ∈ (runSelected apiRun tmTest 0 sampleTake
          [extPost, selfPost] [] FS.absent).1 ↔
        ∃ it, it ∈ chosenOld sampleTake [extPost, selfPost] "me" []
          ∧ it.post.uri = "u1" ∧ apiRun.repostOk it.post.uri = true) :=
  ⟨by decide,
   (c6_mark_policy apiRun tmTest 0 sampleTake [extPost, selfPost] []
      FS.absent "u1").2.2.1 extPost (by decide),
   fun u2 => (c6_mark_policy apiRun tmTest 0 sampleTake [extPost, selfPost]
      [] FS.absent "u1").1 extPost u2,
   (c6_mark_policy apiRun tmTest 0 sampleTake [extPost, selfPost] []
      FS.absent "u1").2.2.2⟩

/-- A concrete feed item whose repost fails under `apiRun`. -/
def failPost : FeedItem :=
  { post := { uri := "ufail", cid := "cf", author := { did := "alice" },
              createdAt := some "a", indexedAt := none, viewer := none } }

/-- C7: when the primary repost of an item fails, the item's trace is
just the ensure-follow events, the conditional unrepost and the failed
repost attempt — no like, no likers fan-out, no stats reply, no quote,
and no cooldown mark happen for the item — and the loop continues with
the remaining items over an unchanged cooldown store and file. -/
theorem c7_primary_failure_skips (api : Api) (tm : TimeModel) (now : Int)
    (it : FeedItem) (b : Bool) (rest : List (FeedItem × Bool))
    (log : Dict) (fs : FS)
    (hfail : api.repostOk it.post.uri = false) :
    itemEvents api it b
      = ensure_follow api it.post.author.did
        ++ unrepost_if_needed api it.post b
        ++ [Event.repostAttempt it.post.uri false]
    ∧ (∀ u, Event.likeE u ∉ itemEvents api it b)
    ∧ (∀ d ok, Event.followLiker d ok ∉ itemEvents api it b)
    ∧ (∀ u, Event.markE u ∉ itemEvents api it b)
    ∧ (∀ u, Event.statsReply u ∉ itemEvents api it b)
    ∧ (∀ u, Event.quoteE u ∉ itemEvents api it b)
    ∧ runItems api tm now ((it, b) :: rest) log fs
        = (itemEvents api it b ++ (runItems api tm now rest log fs).1,
           (runItems api tm now rest log fs).2) := by
  have hev : itemEvents api it b
      = ensure_follow api it.post.author.did
        ++ unrepost_if_needed api it.post b
        ++ [Event.repostAttempt it.post.uri false] := by
    simp [itemEvents, repost_post, hfail]
  have hshape : ∀ e ∈ itemEvents api it b,
      e = Event.followAuthor it.post.author.did
      ∨ (∃ ru, e = Event.unrepostE ru)
      ∨ e = Event.repostAttempt it.post.uri false := by
    intro e he
    rw [hev] at he
    rcases List.mem_append.mp he with he | he
    · rcases List.mem_append.mp he with he | he
      · exact Or.inl (ensure_follow_shape api _ _ he)
      · exact Or.inr (Or.inl (unrepost_shape api _ _ _ he))
    · rw [List.mem_singleton] at he
      exact Or.inr (Or.inr he)
  have hms : markStep api tm now it b log fs = (log, fs) := by
    simp [markStep, repost_post, hfail]
  refine ⟨hev, ?_, ?_, ?_, ?_, ?_, ?_⟩
  · intro u hmem
    rcases hshape _ hmem with h | ⟨ru, h⟩ | h <;> exact Event.noConfusion h
  · intro d ok hmem
    rcases hshape _ hmem with h | ⟨ru, h⟩ | h <;> exact Event.noConfusion h
  · intro u hmem
    rcases hshape _ hmem with h | ⟨ru, h⟩ | h <;> exact Event.noConfusion h
  · intro u hmem
    rcases hshape _ hmem with h | ⟨ru, h⟩ | h <;> exact Event.noConfusion h
  · intro u hmem
    rcases hshape _ hmem with h | ⟨ru, h⟩ | h <;> exact Event.noConfusion h
  · rw [runItems_cons, hms]

/-- Witness for C7: processing the failing item performs only the
follow/unrepost/failed-repost steps and leaves the store untouched. -/
theorem c7_primary_failure_skips_witness :
    (apiRun.repostOk failPost.post.uri = false)
    ∧ (itemEvents apiRun failPost false
        = ensure_follow apiRun failPost.post.author.did
          ++ unrepost_if_needed apiRun failPost.post false
          ++ [Event.repostAttempt failPost.post.uri false]
       ∧ (∀ u, Event.likeE u ∉ itemEvents apiRun failPost false)
       ∧ (∀ d ok, Event.followLiker d ok ∉ itemEvents apiRun failPost false)
       ∧ (∀ u, Event.markE u ∉ itemEvents apiRun failPost false)
       ∧ (∀ u, Event.statsReply u ∉ itemEvents apiRun failPost false)
       ∧ (∀ u, Event.quoteE u ∉ itemEvents apiRun failPost false)
       ∧ runItems apiRun tmTest 0 [(failPost, false), (extPost, false)] [] FS.absent
           = (itemEvents apiRun failPost false
               ++ (runItems apiRun tmTest 0 [(extPost, false)] [] FS.absent).1,
              (runItems apiRun tmTest 0 [(extPost, false)] [] FS.absent).2)) :=
  ⟨by decide,
   c7_primary_failure_skips apiRun tmTest 0 failPost false
     [(extPost, false)] [] FS.absent (by decide)⟩

theorem unrepostE_mem_itemEvents (api : Api) (it : FeedItem) (nw : Bool)
    (ru : String) :
    Event.unrepostE ru ∈ itemEvents api it nw ↔
      Event.unrepostE ru ∈ unrepost_if_needed api it.post nw := by
  have hef : Event.unrepostE ru ∉ ensure_follow api it.post.author.did :=
    fun hmem => Event.noConfusion (ensure_follow_shape api _ _ hmem)
  have hfl : Event.unrepostE ru ∉ (follow_likers api it.post.uri).1 := by
    intro hmem
    obtain ⟨d, ok, h⟩ := follow_likers_shape api it.post.uri _ hmem
    exact Event.noConfusion h
  unfold itemEvents
  by_cases hok : repost_post api it.post.uri = true
  · rw [if_pos hok]
    cases nw <;> cases hq : api.hasQuote <;>
      simp [List.mem_append, hef, hfl]
  · rw [if_neg hok]
    simp [List.mem_append, hef]

/-- C9: retraction is never attempted for sampled (non-newest) items;
for the pinned item whose viewer state carries a repost reference with
a usable URI, the trace is the ensure-follow events, then the unrepost
call, then a tail that contains the repost attempt — so the retraction
occurs strictly before the new repost call, and the events before the
unrepost contain no repost attempt; and when the viewer state or its
repost field is absent no retraction is attempted. -/
theorem c9_unrepost_before_repost (api : Api) (it : FeedItem) :
    (∀ ru, Event.unrepostE ru ∉ itemEvents api it false)
    ∧ (∀ v r ru, it.post.viewer = some v → v.repost = some r →
        r.uri = some ru →
        ∃ l2, itemEvents api it true
            = ensure_follow api it.post.author.did
              ++ [Event.unrepostE ru] ++ l2
          ∧ (∀ e ∈ ensure_follow api it.post.author.did,
              ∀ p ok, e ≠ Event.repostAttempt p ok)
          ∧ Event.repostAttempt it.post.uri (api.repostOk it.post.uri) ∈ l2)
    ∧ (it.post.viewer = none →
        ∀ ru, Event.unrepostE ru ∉ itemEvents api it true)
    ∧ (∀ v, it.post.viewer = some v → v.repost = none →
        ∀ ru, Event.unrepostE ru ∉ itemEvents api it true) := by
  have hef : ∀ e ∈ ensure_follow api it.post.author.did,
      ∀ p ok, e ≠ Event.repostAttempt p ok := by
    intro e he p ok h
    rw [ensure_follow_shape api _ _ he] at h
    exact Event.noConfusion h
  refine ⟨?_, ?_, ?_, ?_⟩
  · intro ru hmem
    rw [unrepostE_mem_itemEvents] at hmem
    simp [unrepost_if_needed] at hmem
  · intro v r ru hv hr hru
    have heu : unrepost_if_needed api it.post true = [Event.unrepostE ru] := by
      simp [unrepost_if_needed, hv, hr, hru]
    by_cases hok : repost_post api it.post.uri = true
    · refine ⟨[Event.repostAttempt it.post.uri true, Event.likeE it.post.uri]
          ++ (follow_likers api it.post.uri).1
          ++ [Event.statsReply it.post.uri]
          ++ (if api.hasQuote then [Event.quoteE it.post.uri] else []),
        ?_, hef, ?_⟩
      · simp [itemEvents, hok, heu, List.append_assoc]
      · rw [repost_post] at hok
        rw [hok]
        simp
    · refine ⟨[Event.repostAttempt it.post.uri false], ?_, hef, ?_⟩
      · simp [itemEvents, hok, heu]
      · rw [repost_post] at hok
        simp only [Bool.not_eq_true] at hok
        rw [hok]
        simp
  · intro hv ru hmem
    rw [unrepostE_mem_itemEvents] at hmem
    simp [unrepost_if_needed, hv] at hmem
  · intro v hv hr ru hmem
    rw [unrepostE_mem_itemEvents] at hmem
    simp [unrepost_if_needed, hv, hr] at hmem

/-- A concrete pinned item with an existing viewer repost `"r9"`. -/
def pinnedPost : FeedItem :=
  { post := { uri := "u9", cid := "c9", author := { did := "alice" },
              createdAt := some "b", indexedAt := none,
              viewer := some { repost := some { uri := some "r9" } } } }

/-- Witness for C9 at the concrete pinned item: the retraction event
precedes the repost attempt, and a sampled item triggers no
retraction. -/
theorem c9_unrepost_before_repost_witness :
    (pinnedPost.post.viewer = some { repost := some { uri := some "r9" } })
    ∧ (∃ l2, itemEvents apiRun pinnedPost true
          = ensure_follow apiRun pinnedPost.post.author.did
            ++ [Event.unrepostE "r9"] ++ l2
        ∧ (∀ e ∈ ensure_follow apiRun pinnedPost.post.author.did,
            ∀ p ok, e ≠ Event.repostAttempt p ok)
        ∧ Event.repostAttempt pinnedPost.post.uri
            (apiRun.repostOk pinnedPost.post.uri) ∈ l2)
    ∧ (∀ ru, Event.unrepostE ru ∉ itemEvents apiRun extPost false) :=
  ⟨rfl,
   (c9_unrepost_before_repost apiRun pinnedPost).2.1
     { repost := some { uri := some "r9" } } { uri := some "r9" } "r9"
     rfl rfl rfl,
   fun ru => (c9_unrepost_before_repost apiRun extPost).1 ru⟩

/-- One post of the target account surfacing twice in the author feed
(the feed keeps repost entries, so e.g. the target reposting its own
post repeats the same `post.uri`). -/
def dupPost : FeedItem :=
  { post := { uri := "dup", cid := "cD", author := { did := "alice" },
              createdAt := some "a", indexedAt := none, viewer := none } }

/-- C8 counterexample: on a (trivially sorted) feed in which the same
URI occurs twice among the older items, both occurrences survive the
self/cooldown filter, the without-replacement sample (here the valid
sampler `sampleTake`, see `sampleTake_ok`) picks both positions, and
the selector's output carries the identifier `"dup"` twice — so one
run's output CAN contain duplicate identifiers. -/
theorem c8_duplicate_ids_counterexample :
    List.Sorted tsLe [dupPost, dupPost, extPost]
    ∧ dupPost.post.author.did ≠ "me"
    ∧ ¬ (((selectedItems sampleTake [dupPost, dupPost, extPost] "me" []).map
          (fun it => it.post.uri)).Nodup) := by
  refine ⟨?_, by decide, ?_⟩
  · have hall : ∀ x ∈ [dupPost, dupPost, extPost], get_post_timestamp x = "a" :=
      by decide
    refine List.pairwise_of_forall_mem_list ?_
    intro x hx y hy
    show get_post_timestamp x ≤ get_post_timestamp y
    rw [hall x hx, hall y hy]
  · intro hnodup
    have hoc : oldCandidates [dupPost, dupPost, extPost] "me" []
        = [dupPost, dupPost] := rfl
    have hchosen : chosenOld sampleTake [dupPost, dupPost, extPost] "me" []
        = List.insertionSort tsLe [dupPost, dupPost] := by
      simp only [chosenOld, hoc]
      rfl
    have hperm : List.Perm
        (chosenOld sampleTake [dupPost, dupPost, extPost] "me" [])
        [dupPost, dupPost] := by
      rw [hchosen]
      exact List.perm_insertionSort tsLe _
    rw [selectedItems,
      show newestCandidate [dupPost, dupPost, extPost] "me" = some extPost
        from rfl,
      List.map_append] at hnodup
    have h1 := hnodup.of_append_left
    have h2 : (([dupPost, dupPost]).map (fun it => it.post.uri)).Nodup :=
      ((hperm.map (fun it => it.post.uri)).nodup_iff).mp h1
    exact absurd h2 (by decide)
